import Mathlib

/- Verification of the multi-strategy PDF text-replacement pipeline of
   pdf_processor.py.  The PyMuPDF/PyPDF2 document structures are shallowly
   embedded: a page is its structured text content (blocks of lines of spans)
   together with the drawing operations performed on it; Python floats are
   idealized as exact fractions; Python exceptions are modelled with Except. -/

/- Exact fraction num/den: the idealization of a Python float value.
   Every value constructed by the model has a positive denominator. -/
structure Frac where
  num : Int
  den : Nat
deriving DecidableEq, Repr

instance (n : Nat) : OfNat Frac n := ⟨⟨Int.ofNat n, 1⟩⟩

def Frac.add (a b : Frac) : Frac := ⟨a.num * b.den + b.num * a.den, a.den * b.den⟩

def Frac.sub (a b : Frac) : Frac := ⟨a.num * b.den - b.num * a.den, a.den * b.den⟩

instance : Add Frac := ⟨Frac.add⟩

instance : Sub Frac := ⟨Frac.sub⟩

/- Strict order on fractions, valid for positive denominators. -/
def Frac.blt (a b : Frac) : Bool := a.num * b.den < b.num * a.den

/- The rational value denoted by a fraction. -/
def Frac.toRat (f : Frac) : ℚ := (f.num : ℚ) / (f.den : ℚ)

/- String helpers mirroring the Python operations used by the source. -/

def leadsB (pat hay : List Char) : Bool :=
  match pat, hay with
  | [], _ => true
  | _, [] => false
  | p :: ps, q :: qs => p == q && leadsB ps qs

def subListB (pat hay : List Char) : Bool := hay.tails.any (fun t => leadsB pat t)

/- Python `pat in hay` substring containment. -/
def strContainsB (hay pat : String) : Bool := subListB pat.toList hay.toList

/- Python str.replace: replace all non-overlapping occurrences, left to right.
   The fuel argument is instantiated with the length of the haystack, which
   suffices because each step consumes at least one character. -/
def repAllF (pat rep : List Char) : Nat → List Char → List Char
  | _, [] => []
  | 0, hay => hay
  | Nat.succ fuel, c :: rest =>
    if !pat.isEmpty && leadsB pat (c :: rest) then
      rep ++ repAllF pat rep fuel ((c :: rest).drop pat.length)
    else
      c :: repAllF pat rep fuel rest

def pyReplace (s old new : String) : String :=
  ⟨repAllF old.toList new.toList s.toList.length s.toList⟩

/- Python `bool(s.strip())`: s has some non-whitespace character. -/
def hasNonWS (s : String) : Bool := s.toList.any (fun c => !c.isWhitespace)

/- Value of one hexadecimal digit as accepted by Python int(_, 16): the
   code points of 0-9 (48-57), a-f (97-102) and A-F (65-70). -/
def hexVal (c : Char) : Option Nat :=
  if 48 ≤ c.toNat ∧ c.toNat ≤ 57 then some (c.toNat - 48)
  else if 97 ≤ c.toNat ∧ c.toNat ≤ 102 then some (c.toNat - 87)
  else if 65 ≤ c.toNat ∧ c.toNat ≤ 70 then some (c.toNat - 55)
  else none

def pyIntHexAux : List Char → Nat → Option Nat
  | [], acc => some acc
  | c :: rest, acc =>
    match hexVal c with
    | some v => pyIntHexAux rest (16 * acc + v)
    | none => none

/- Python int(x, 16): none models the ValueError on an empty or bad string. -/
def pyIntHex (l : List Char) : Option Nat :=
  if l.isEmpty then none else pyIntHexAux l 0

/- hex_to_rgb from pdf_processor.py: strip leading hash marks, then parse the
   character pairs at offsets 0, 2, 4 and divide each by 255.0.  The division
   int(..)/255.0 is recorded as the exact fraction v/255. -/
def hex_to_rgb (s : String) : Option (Frac × Frac × Frac) :=
  let h := s.toList.dropWhile (fun c => c == '#')
  match pyIntHex ((h.drop 0).take 2), pyIntHex ((h.drop 2).take 2),
        pyIntHex ((h.drop 4).take 2) with
  | some r, some g, some b => some (⟨(r : Int), 255⟩, ⟨(g : Int), 255⟩, ⟨(b : Int), 255⟩)
  | _, _, _ => none

/- ----------------------------------------------------------------------
   Data model: the structured text content of a page as returned by
   page.get_text("dict"), plus the mutations a strategy performs on it.
   ---------------------------------------------------------------------- -/

/- A rectangle (x0, y0, x1, y1) in page coordinates. -/
structure Rct where
  x0 : Frac
  y0 : Frac
  x1 : Frac
  y1 : Frac
deriving DecidableEq, Repr

/- The dynamically typed Python value found under span["color"]: a bare
   number, a tuple or list of numbers, or some other shape. -/
inductive PyColor where
  | num (v : Frac)
  | tup (cs : List Frac)
  | other
deriving DecidableEq, Repr

/- One text span of the structured page content.  color is an Option because
   the source reads it with span.get("color", (0, 0, 0)). -/
structure Span where
  text : String
  font : String
  size : Frac
  bbox : Rct
  color : Option PyColor
deriving DecidableEq, Repr

structure Line where
  spans : List Span
deriving DecidableEq, Repr

/- A block of page.get_text("dict")["blocks"]; lines is none for a block
   without a "lines" key (an image block). -/
structure Block where
  lines : Option (List Line)
deriving DecidableEq, Repr

/- A loaded page: its structured text plus the filled rectangles drawn over
   it by page.draw_rect.  Drawn rectangles cover text visually but do not
   remove it from the extractable content. -/
structure Page where
  width : Frac
  height : Frac
  blocks : List Block
  drawings : List Rct
deriving DecidableEq, Repr

structure Doc where
  pages : List Page
deriving DecidableEq, Repr

/- The rendering environment: which font names the backend can resolve.
   page.insert_text raises for an unresolvable font name. -/
structure Env where
  fontOk : String → Bool

/- The exceptions a strategy can raise, all caught at its boundary. -/
inductive PdfErr where
  | emptyDoc
  | badColor
  | fontMissing
  | badInsertPage
deriving DecidableEq, Repr

/- doc[0]: raises on a document with no pages. -/
def getPage0 (doc : Doc) : Except PdfErr Page :=
  match doc.pages with
  | [] => .error .emptyDoc
  | p :: _ => .ok p

def linesOf (b : Block) : List Line := b.lines.getD []

/- All spans of a block list, in block / line / span order. -/
def flatSpans (blocks : List Block) : List Span :=
  ((blocks.map (fun b => ((linesOf b).map Line.spans).flatten)).flatten)

/- The triple loop common to the strategies: the first span, in document
   order, whose text contains old as a substring. -/
def findTargetSpan (blocks : List Block) (old : String) : Option Span :=
  (flatSpans blocks).find? (fun s => strContainsB s.text old)

/- Text extraction of a page (page.get_text / PyPDF2 extract_text). -/
def extractText (p : Page) : String :=
  String.intercalate "\n" ((flatSpans p.blocks).map Span.text)

/- page.search_for(needle): one rectangle per span containing the needle. -/
def searchFor (p : Page) (needle : String) : List Rct :=
  ((flatSpans p.blocks).filter (fun s => strContainsB s.text needle)).map Span.bbox

/- page.draw_rect(r, fill=(1,1,1)): purely additive white cover. -/
def drawRect (p : Page) (r : Rct) : Page :=
  { p with drawings := p.drawings ++ [r] }

/- Open-interval overlap of two rectangles (positive denominators). -/
def rectsIntersectB (a b : Rct) : Bool :=
  Frac.blt a.x0 b.x1 && Frac.blt b.x0 a.x1 && Frac.blt a.y0 b.y1 && Frac.blt b.y0 a.y1

/- page.add_redact_annot(r, fill=(1,1,1)) followed by page.apply_redactions():
   permanently removes the text content intersecting r. -/
def applyRedact (p : Page) (r : Rct) : Page :=
  { p with blocks := p.blocks.map (fun b =>
      ⟨b.lines.map (fun ls => ls.map (fun ln =>
        ⟨ln.spans.filter (fun s => !(rectsIntersectB s.bbox r))⟩))⟩) }

/- page.insert_text(point, text, fontsize, fontname, color): raises when the
   font name cannot be resolved; otherwise the inserted text is appended to
   the page content as a fresh span whose bbox is degenerate at the
   insertion point. -/
def insertText (env : Env) (p : Page) (pt : Frac × Frac) (text : String)
    (fsize : Frac) (fname : String) (color : Frac × Frac × Frac) :
    Except PdfErr Page :=
  if env.fontOk fname then
    .ok { p with blocks := p.blocks ++
      [⟨some [⟨[⟨text, fname, fsize, ⟨pt.1, pt.2, pt.1, pt.2⟩,
                 some (.tup [color.1, color.2.1, color.2.2])⟩]⟩]⟩] }
  else
    .error .fontMissing

/- Mutating page 0 of a document in place. -/
def setPage0 (doc : Doc) (p : Page) : Doc := ⟨doc.pages.set 0 p⟩

/- The defensive color normalization of the direct / precise rebuild loop:
   span.get("color", (0,0,0)); numbers are collapsed to black by both
   branches of `if color > 0`; tuples and lists keep their value only when
   their length is 1, 3 or 4; anything else becomes black. -/
def normColor : Option PyColor → PyColor
  | none => .tup [0, 0, 0]
  | some (.num _) => .tup [0, 0, 0]
  | some (.tup cs) =>
    if cs.length = 1 ∨ cs.length = 3 ∨ cs.length = 4 then .tup cs else .tup [0, 0, 0]
  | some .other => .tup [0, 0, 0]

/- ----------------------------------------------------------------------
   The strategy bodies.  Each is the try-block of the corresponding Python
   function: .ok none models `return False` after "text not found" (no
   save), .ok (some d) models a successful save of d to the output path,
   and .error models an exception, caught at the strategy boundary.
   ---------------------------------------------------------------------- -/

/- replace_text_clean: draw a white rectangle over the target span bbox
   expanded by 3, then insert the new text at (bbox.x0, bbox.y1 - 5). -/
def cleanBody (env : Env) (doc : Doc) (old new : String) : Except PdfErr (Option Doc) :=
  match getPage0 doc with
  | .error e => .error e
  | .ok page =>
    match findTargetSpan page.blocks old with
    | none => .ok none
    | some ts =>
      let bbox := ts.bbox
      let expanded : Rct := ⟨bbox.x0 - 3, bbox.y0 - 3, bbox.x1 + 3, bbox.y1 + 3⟩
      let page1 := drawRect page expanded
      match hex_to_rgb "#0066cc" with
      | none => .error .badColor
      | some c =>
        match insertText env page1 (bbox.x0, bbox.y1 - 5) new ts.size ts.font c with
        | .error e => .error e
        | .ok page2 => .ok (some (setPage0 doc page2))

/- replace_text_minimal: redact the target span bbox expanded by 2, then
   insert the new text at (bbox.x0, bbox.y1 - 2). -/
def minimalBody (env : Env) (doc : Doc) (old new : String) : Except PdfErr (Option Doc) :=
  match getPage0 doc with
  | .error e => .error e
  | .ok page =>
    match findTargetSpan page.blocks old with
    | none => .ok none
    | some ts =>
      let bbox := ts.bbox
      let expanded : Rct := ⟨bbox.x0 - 2, bbox.y0 - 2, bbox.x1 + 2, bbox.y1 + 2⟩
      let page1 := applyRedact page expanded
      match hex_to_rgb "#0066cc" with
      | none => .error .badColor
      | some c =>
        match insertText env page1 (bbox.x0, bbox.y1 - 2) new ts.size ts.font c with
        | .error e => .error e
        | .ok page2 => .ok (some (setPage0 doc page2))

/- replace_text_overlay: redact the exact target span bbox, then insert the
   new text at (rect.x0, rect.y1 - 2). -/
def overlayBody (env : Env) (doc : Doc) (old new : String) : Except PdfErr (Option Doc) :=
  match getPage0 doc with
  | .error e => .error e
  | .ok page =>
    match findTargetSpan page.blocks old with
    | none => .ok none
    | some ts =>
      let rect := ts.bbox
      let page1 := applyRedact page rect
      match hex_to_rgb "#0066cc" with
      | none => .error .badColor
      | some c =>
        match insertText env page1 (rect.x0, rect.y1 - 2) new ts.size ts.font c with
        | .error e => .error e
        | .ok page2 => .ok (some (setPage0 doc page2))

/- One iteration of the replace_text_in_pdf loop over search_for results:
   redact the occurrence rectangle, then insert the new text at
   (rect.x0, rect.y1 - 2) with the target span font and size. -/
def standardStep (env : Env) (new : String) (fsize : Frac) (fname : String)
    (page : Page) (rect : Rct) : Except PdfErr Page :=
  let page1 := applyRedact page rect
  match hex_to_rgb "#0066cc" with
  | none => .error .badColor
  | some c => insertText env page1 (rect.x0, rect.y1 - 2) new fsize fname c

/- replace_text_in_pdf (the `standard` strategy). -/
def standardBody (env : Env) (doc : Doc) (old new : String) : Except PdfErr (Option Doc) :=
  match getPage0 doc with
  | .error e => .error e
  | .ok page =>
    match findTargetSpan page.blocks old with
    | none => .ok none
    | some ts =>
      let instances := searchFor page old
      if instances.isEmpty then .ok none
      else
        match List.foldlM (standardStep env new ts.size ts.font) page instances with
        | .error e => .error e
        | .ok page2 => .ok (some (setPage0 doc page2))

/- A text drawing emitted onto the rebuilt page of direct / precise. -/
structure Emit where
  pos : Frac × Frac
  text : String
  size : Frac
  font : String
  color : PyColor
deriving DecidableEq, Repr

/- One iteration of the direct / precise rebuild loop over the spans of
   page 0: substring-replace the target text, skip spans whose stripped
   text is empty, pick the accent color for spans containing the new text
   and the normalized span color otherwise, then insert at
   (bbox.x0, bbox.y1 - 2) on the new page (raising when the span font
   cannot be resolved). -/
/- The per-span color of the rebuild loop: hex_to_rgb("#0066cc") for a span
   containing the new text (a parse failure would raise), the normalized
   span color otherwise. -/
def spanColorE (s : Span) (t new : String) : Except PdfErr PyColor :=
  if strContainsB t new then
    match hex_to_rgb "#0066cc" with
    | none => .error .badColor
    | some c => .ok (.tup [c.1, c.2.1, c.2.2])
  else .ok (normColor s.color)

def rebuildStep (env : Env) (old new : String) (acc : List Emit) (s : Span) :
    Except PdfErr (List Emit) :=
  if hasNonWS (if strContainsB s.text old then pyReplace s.text old new else s.text) then
    match spanColorE s
        (if strContainsB s.text old then pyReplace s.text old new else s.text) new with
    | .error e => .error e
    | .ok col =>
      if env.fontOk s.font then
        .ok (acc ++ [⟨(s.bbox.x0, s.bbox.y1 - 2),
          (if strContainsB s.text old then pyReplace s.text old new else s.text),
          s.size, s.font, col⟩])
      else .error .fontMissing
  else .ok acc

/- The whole rebuild loop of replace_text_direct / replace_text_precise
   (the two functions contain the identical loop, token for token). -/
def rebuildSpansE (env : Env) (blocks : List Block) (old new : String) :
    Except PdfErr (List Emit) :=
  List.foldlM (rebuildStep env old new) [] (flatSpans blocks)

/- replace_text_direct.  After the rebuild loop the source runs
   doc.new_page(width, height)   -- appends the rebuilt page at the END
   doc.delete_page(0)
   doc.insert_page(0, new_page)  -- the second parameter of
   Document.insert_page is `text`, not a Page: PyMuPDF forwards it to
   Shape.insert_text, which calls .splitlines() on it and raises.  The
   exception is modelled as badInsertPage, so the strategy can never
   report success on a page containing the target. -/
def directBody (env : Env) (doc : Doc) (old new : String) : Except PdfErr (Option Doc) :=
  match getPage0 doc with
  | .error e => .error e
  | .ok page =>
    match findTargetSpan page.blocks old with
    | none => .ok none
    | some _ =>
      match rebuildSpansE env page.blocks old new with
      | .error e => .error e
      | .ok _ => .error .badInsertPage

/- replace_text_precise: a verbatim duplicate of replace_text_direct. -/
def preciseBody (env : Env) (doc : Doc) (old new : String) : Except PdfErr (Option Doc) :=
  match getPage0 doc with
  | .error e => .error e
  | .ok page =>
    match findTargetSpan page.blocks old with
    | none => .ok none
    | some _ =>
      match rebuildSpansE env page.blocks old new with
      | .error e => .error e
      | .ok _ => .error .badInsertPage

/- The reportlab watermark page of process_pdf_simple, merged onto page 0:
   canvas of letter size (612 x 792), drawString at (50, 792 - 100) in
   Helvetica-Bold 24 with reportlab blue (0, 0, 1). -/
def mergeWatermark (p : Page) : Page :=
  { p with blocks := p.blocks ++
      [⟨some [⟨[⟨"PD Report", "Helvetica-Bold", 24, ⟨50, 692, 50, 692⟩,
                 some (.tup [0, 0, 1])⟩]⟩]⟩] }

/- process_pdf_simple: copy every page; on page 0 extract the text and merge
   the watermark only when it contains "KYC Report"; always report True. -/
def simpleBody (doc : Doc) : Except PdfErr (Option Doc) :=
  match doc.pages with
  | [] => .ok (some ⟨[]⟩)
  | p :: rest =>
    .ok (some ⟨(if strContainsB (extractText p) "KYC Report" then mergeWatermark p
                else p) :: rest⟩)

/- ----------------------------------------------------------------------
   The fallback pipeline process_pdf.
   ---------------------------------------------------------------------- -/

inductive Strat where
  | clean
  | minimal
  | direct
  | overlay
  | precise
  | standard
  | simple
deriving DecidableEq, Repr

/- The try-block of each strategy, at the fixed pipeline arguments
   old_text = "KYC Report", new_text = "PD Report". -/
def bodyOf (env : Env) (doc : Doc) : Strat → Except PdfErr (Option Doc)
  | .clean => cleanBody env doc "KYC Report" "PD Report"
  | .minimal => minimalBody env doc "KYC Report" "PD Report"
  | .direct => directBody env doc "KYC Report" "PD Report"
  | .overlay => overlayBody env doc "KYC Report" "PD Report"
  | .precise => preciseBody env doc "KYC Report" "PD Report"
  | .standard => standardBody env doc "KYC Report" "PD Report"
  | .simple => simpleBody doc

/- A whole strategy call: the surrounding try/except turns an exception
   into `return False`.  some d means the strategy returned True after
   saving d to the output path; none means it returned False and saved
   nothing. -/
def runStrat (env : Env) (doc : Doc) (s : Strat) : Option Doc :=
  match bodyOf env doc s with
  | .ok (some d) => some d
  | .ok none => none
  | .error _ => none

/- The observable outcome of one process_pdf call: the returned boolean,
   the strategies invoked, and the documents written to the output path. -/
structure PipeResult where
  ok : Bool
  attempts : List Strat
  writes : List Doc
deriving DecidableEq, Repr

def prependA (s : Strat) (r : PipeResult) : PipeResult :=
  ⟨r.ok, s :: r.attempts, r.writes⟩

/- Specification-level runner: attempt the strategies of the list in order
   on a fresh load of the source document, stopping at the first success. -/
def tryInOrder (env : Env) (doc : Doc) : List Strat → PipeResult
  | [] => ⟨false, [], []⟩
  | s :: rest =>
    match runStrat env doc s with
    | some d => ⟨true, [s], [d]⟩
    | none => prependA s (tryInOrder env doc rest)

/- The sequential if-chain of process_pdf, one stage per `if method == ...`
   block.  A stage whose guard does not match falls through to the next
   stage with the method string unchanged; a failing strategy falls through
   with the method string reassigned to the next strategy name. -/

def stage_simple (env : Env) (doc : Doc) (m : String) : PipeResult :=
  if m = "simple" then
    match runStrat env doc .simple with
    | some d => ⟨true, [.simple], [d]⟩
    | none => ⟨false, [.simple], []⟩
  else ⟨false, [], []⟩

def stage_standard (env : Env) (doc : Doc) (m : String) : PipeResult :=
  if m = "standard" then
    match runStrat env doc .standard with
    | some d => ⟨true, [.standard], [d]⟩
    | none => prependA .standard (stage_simple env doc "simple")
  else stage_simple env doc m

def stage_precise (env : Env) (doc : Doc) (m : String) : PipeResult :=
  if m = "precise" then
    match runStrat env doc .precise with
    | some d => ⟨true, [.precise], [d]⟩
    | none => prependA .precise (stage_standard env doc "standard")
  else stage_standard env doc m

def stage_overlay (env : Env) (doc : Doc) (m : String) : PipeResult :=
  if m = "overlay" then
    match runStrat env doc .overlay with
    | some d => ⟨true, [.overlay], [d]⟩
    | none => prependA .overlay (stage_precise env doc "precise")
  else stage_precise env doc m

def stage_direct (env : Env) (doc : Doc) (m : String) : PipeResult :=
  if m = "direct" then
    match runStrat env doc .direct with
    | some d => ⟨true, [.direct], [d]⟩
    | none => prependA .direct (stage_overlay env doc "overlay")
  else stage_overlay env doc m

def stage_minimal (env : Env) (doc : Doc) (m : String) : PipeResult :=
  if m = "minimal" then
    match runStrat env doc .minimal with
    | some d => ⟨true, [.minimal], [d]⟩
    | none => prependA .minimal (stage_direct env doc "direct")
  else stage_direct env doc m

def stage_clean (env : Env) (doc : Doc) (m : String) : PipeResult :=
  if m = "clean" then
    match runStrat env doc .clean with
    | some d => ⟨true, [.clean], [d]⟩
    | none => prependA .clean (stage_minimal env doc "minimal")
  else stage_minimal env doc m

/- process_pdf(input_path, output_path, method). -/
def process_pdf (env : Env) (doc : Doc) (method : String) : PipeResult :=
  stage_clean env doc method

/- The fixed default strategy order of the pipeline. -/
def defaultOrder : List Strat :=
  [.clean, .minimal, .direct, .overlay, .precise, .standard, .simple]

/- The chain suffix actually run for a selected method name. -/
def suffixFrom (m : String) : List Strat :=
  if m = "clean" then [.clean, .minimal, .direct, .overlay, .precise, .standard, .simple]
  else if m = "minimal" then [.minimal, .direct, .overlay, .precise, .standard, .simple]
  else if m = "direct" then [.direct, .overlay, .precise, .standard, .simple]
  else if m = "overlay" then [.overlay, .precise, .standard, .simple]
  else if m = "precise" then [.precise, .standard, .simple]
  else if m = "standard" then [.standard, .simple]
  else if m = "simple" then [.simple]
  else []

/- ----------------------------------------------------------------------
   Helper lemmas: each stage of the if-chain equals the ordered runner on
   the corresponding suffix of the default order.
   ---------------------------------------------------------------------- -/

lemma stage_simple_hit (env : Env) (doc : Doc) :
    stage_simple env doc "simple" = tryInOrder env doc [.simple] := by
  unfold stage_simple
  rw [if_pos rfl]
  cases h : runStrat env doc .simple <;> simp [tryInOrder, prependA, h]

lemma stage_simple_miss (env : Env) (doc : Doc) (m : String) (h : m ≠ "simple") :
    stage_simple env doc m = ⟨false, [], []⟩ := by
  simp [stage_simple, h]

lemma stage_standard_hit (env : Env) (doc : Doc) :
    stage_standard env doc "standard" = tryInOrder env doc [.standard, .simple] := by
  unfold stage_standard
  rw [if_pos rfl]
  cases h : runStrat env doc .standard <;>
    simp [tryInOrder, prependA, h, stage_simple_hit]

lemma stage_standard_miss (env : Env) (doc : Doc) (m : String) (h : m ≠ "standard") :
    stage_standard env doc m = stage_simple env doc m := by
  simp [stage_standard, h]

lemma stage_precise_hit (env : Env) (doc : Doc) :
    stage_precise env doc "precise" = tryInOrder env doc [.precise, .standard, .simple] := by
  unfold stage_precise
  rw [if_pos rfl]
  cases h : runStrat env doc .precise <;>
    simp [tryInOrder, prependA, h, stage_standard_hit]

lemma stage_precise_miss (env : Env) (doc : Doc) (m : String) (h : m ≠ "precise") :
    stage_precise env doc m = stage_standard env doc m := by
  simp [stage_precise, h]

lemma stage_overlay_hit (env : Env) (doc : Doc) :
    stage_overlay env doc "overlay" =
      tryInOrder env doc [.overlay, .precise, .standard, .simple] := by
  unfold stage_overlay
  rw [if_pos rfl]
  cases h : runStrat env doc .overlay <;>
    simp [tryInOrder, prependA, h, stage_precise_hit]

lemma stage_overlay_miss (env : Env) (doc : Doc) (m : String) (h : m ≠ "overlay") :
    stage_overlay env doc m = stage_precise env doc m := by
  simp [stage_overlay, h]

lemma stage_direct_hit (env : Env) (doc : Doc) :
    stage_direct env doc "direct" =
      tryInOrder env doc [.direct, .overlay, .precise, .standard, .simple] := by
  unfold stage_direct
  rw [if_pos rfl]
  cases h : runStrat env doc .direct <;>
    simp [tryInOrder, prependA, h, stage_overlay_hit]

lemma stage_direct_miss (env : Env) (doc : Doc) (m : String) (h : m ≠ "direct") :
    stage_direct env doc m = stage_overlay env doc m := by
  simp [stage_direct, h]

lemma stage_minimal_hit (env : Env) (doc : Doc) :
    stage_minimal env doc "minimal" =
      tryInOrder env doc [.minimal, .direct, .overlay, .precise, .standard, .simple] := by
  unfold stage_minimal
  rw [if_pos rfl]
  cases h : runStrat env doc .minimal <;>
    simp [tryInOrder, prependA, h, stage_direct_hit]

lemma stage_minimal_miss (env : Env) (doc : Doc) (m : String) (h : m ≠ "minimal") :
    stage_minimal env doc m = stage_direct env doc m := by
  simp [stage_minimal, h]

lemma stage_clean_hit (env : Env) (doc : Doc) :
    stage_clean env doc "clean" = tryInOrder env doc defaultOrder := by
  unfold stage_clean defaultOrder
  rw [if_pos rfl]
  cases h : runStrat env doc .clean <;>
    simp [tryInOrder, prependA, h, stage_minimal_hit]

lemma stage_clean_miss (env : Env) (doc : Doc) (m : String) (h : m ≠ "clean") :
    stage_clean env doc m = stage_minimal env doc m := by
  simp [stage_clean, h]

/- process_pdf runs exactly the suffix of the fixed chain selected by the
   method name, in order, stopping at the first success. -/
lemma process_pdf_eq_suffix (env : Env) (doc : Doc) (m : String) :
    process_pdf env doc m = tryInOrder env doc (suffixFrom m) := by
  unfold process_pdf
  by_cases h1 : m = "clean"
  · subst h1
    rw [stage_clean_hit]
    simp [suffixFrom, defaultOrder]
  rw [stage_clean_miss env doc m h1]
  by_cases h2 : m = "minimal"
  · subst h2
    rw [stage_minimal_hit]
    simp [suffixFrom]
  rw [stage_minimal_miss env doc m h2]
  by_cases h3 : m = "direct"
  · subst h3
    rw [stage_direct_hit]
    simp [suffixFrom]
  rw [stage_direct_miss env doc m h3]
  by_cases h4 : m = "overlay"
  · subst h4
    rw [stage_overlay_hit]
    simp [suffixFrom]
  rw [stage_overlay_miss env doc m h4]
  by_cases h5 : m = "precise"
  · subst h5
    rw [stage_precise_hit]
    simp [suffixFrom]
  rw [stage_precise_miss env doc m h5]
  by_cases h6 : m = "standard"
  · subst h6
    rw [stage_standard_hit]
    simp [suffixFrom]
  rw [stage_standard_miss env doc m h6]
  by_cases h7 : m = "simple"
  · subst h7
    rw [stage_simple_hit]
    simp [suffixFrom]
  rw [stage_simple_miss env doc m h7]
  simp [suffixFrom, h1, h2, h3, h4, h5, h6, h7, tryInOrder]

/- Write discipline of the ordered runner: at most one write, none on
   overall failure, and every write is a strategy output computed from the
   fresh source document. -/
lemma tryInOrder_writes (env : Env) (doc : Doc) :
    ∀ l : List Strat,
      (tryInOrder env doc l).writes.length ≤ 1 ∧
      ((tryInOrder env doc l).ok = false → (tryInOrder env doc l).writes = []) ∧
      (∀ d ∈ (tryInOrder env doc l).writes, ∃ s, runStrat env doc s = some d) := by
  intro l
  induction l with
  | nil => simp [tryInOrder]
  | cons s rest ih =>
    cases h : runStrat env doc s with
    | some d =>
      refine ⟨?_, ?_, ?_⟩ <;> simp [tryInOrder, h]
      exact ⟨s, h⟩
    | none =>
      refine ⟨?_, ?_, ?_⟩ <;> simp [tryInOrder, h, prependA]
      · exact ih.1
      · exact ih.2.1
      · exact fun d hd => ih.2.2 d hd

/- ----------------------------------------------------------------------
   Concrete fixtures used by counterexamples and witnesses.
   ---------------------------------------------------------------------- -/

/- An environment in which every font name resolves. -/
def envAll : Env := ⟨fun _ => true⟩

/- An environment in which no font name resolves: every insert_text raises. -/
def envNone : Env := ⟨fun _ => false⟩

def spanHello : Span := ⟨"hello", "helv", 12, ⟨10, 10, 40, 20⟩, some (.tup [0, 0, 0])⟩

/- A page that does not contain the target text. -/
def pageHello : Page := ⟨612, 792, [⟨some [⟨[spanHello]⟩]⟩], []⟩

def docHello : Doc := ⟨[pageHello]⟩

/- The span of the concrete scenario of the spec. -/
def spanKYC2024 : Span :=
  ⟨"2024 KYC Report - Confidential", "Helvetica-Bold", 14, ⟨50, 700, 300, 715⟩,
   some (.tup [0, 0, 0])⟩

def pageKYC : Page := ⟨612, 792, [⟨some [⟨[spanKYC2024]⟩]⟩], []⟩

def docKYC : Doc := ⟨[pageKYC]⟩

/- A two page document whose page 0 contains the target. -/
def docTwo : Doc := ⟨[pageKYC, pageHello]⟩

def pageOf (d : Doc) : Page := d.pages.headD ⟨0, 0, [], []⟩

/- ----------------------------------------------------------------------
   C1
   ---------------------------------------------------------------------- -/

/-- C1: with the default configuration (method "clean") the pipeline equals
the ordered runner over the fixed order clean, minimal, direct, overlay,
precise, standard, simple — the strategies are attempted in exactly this
order and the pipeline returns at the first success without attempting any
later strategy; in particular, when clean and minimal both fail, the third
attempt is direct, never precise or standard. -/
theorem c1_default_order (env : Env) (doc : Doc) :
    process_pdf env doc "clean" = tryInOrder env doc defaultOrder ∧
    (runStrat env doc .clean = none → runStrat env doc .minimal = none →
      (process_pdf env doc "clean").attempts.take 3 = [.clean, .minimal, .direct]) := by
  have hbase : process_pdf env doc "clean" = tryInOrder env doc defaultOrder := by
    rw [process_pdf_eq_suffix]
    simp [suffixFrom, defaultOrder]
  refine ⟨hbase, fun h1 h2 => ?_⟩
  rw [hbase]
  simp only [defaultOrder, tryInOrder, h1, h2, prependA]
  cases h3 : runStrat env doc .direct <;> simp only [tryInOrder, h3, prependA] <;> rfl

/-- C1 witness: on a document whose page 0 holds the target span, in an
environment where no font resolves, clean and minimal fail and the first
three attempts are clean, minimal, direct. -/
theorem c1_default_order_witness :
    (process_pdf envNone docKYC "clean").attempts.take 3 = [.clean, .minimal, .direct] :=
  (c1_default_order envNone docKYC).2 (by decide) (by decide)

/- ----------------------------------------------------------------------
   C3
   ---------------------------------------------------------------------- -/

/-- C3 counterexample: selecting the single non-simple method "standard" on
a document where standard fails does NOT report overall failure: the
pipeline implicitly falls back to simple, which succeeds. -/
theorem c3_single_method_cex :
    runStrat envAll docHello .standard = none ∧
    (process_pdf envAll docHello "standard").ok = true ∧
    (process_pdf envAll docHello "standard").attempts = [.standard, .simple] := by
  refine ⟨by decide, by decide, by decide⟩

/-- C3 amended: selecting a method name does not restrict the pipeline to
that strategy; process_pdf runs the whole suffix of the fixed chain
starting at the selected name (falling through to simple), stopping at the
first success, and reports failure only when every strategy of that suffix
fails; an unrecognized name yields failure with no attempts. -/
theorem c3_suffix_semantics (env : Env) (doc : Doc) (m : String) :
    process_pdf env doc m = tryInOrder env doc (suffixFrom m) :=
  process_pdf_eq_suffix env doc m

/- ----------------------------------------------------------------------
   C4
   ---------------------------------------------------------------------- -/

/-- C4: for every request at most one strategy's output is ever written to
the destination; nothing is written when the pipeline fails; and every
written document is the output of a single strategy applied to the freshly
loaded source document, so no failed strategy's in-memory mutations can
leak into the saved output. -/
theorem c4_write_discipline (env : Env) (doc : Doc) (m : String) :
    (process_pdf env doc m).writes.length ≤ 1 ∧
    ((process_pdf env doc m).ok = false → (process_pdf env doc m).writes = []) ∧
    (∀ d ∈ (process_pdf env doc m).writes, ∃ s, runStrat env doc s = some d) := by
  rw [process_pdf_eq_suffix]
  exact tryInOrder_writes env doc (suffixFrom m)

/-- C4 witness: a successful run writes at most one document, and a failed
run (unrecognized method) writes nothing. -/
theorem c4_write_discipline_witness :
    (process_pdf envAll docHello "clean").writes.length ≤ 1 ∧
    (process_pdf envAll docHello "fancy").writes = [] :=
  ⟨(c4_write_discipline envAll docHello "clean").1,
   (c4_write_discipline envAll docHello "fancy").2.1 (by decide)⟩

/- ----------------------------------------------------------------------
   C8
   ---------------------------------------------------------------------- -/

/-- C8: an exception inside any strategy body is caught at the strategy
boundary and becomes that strategy's failure (runStrat returns none, never
an exception), and the pipeline then proceeds to the next strategy of the
fallback order; the caller of process_pdf observes only the PipeResult. -/
theorem c8_exceptions_absorbed :
    (∀ (env : Env) (doc : Doc) (s : Strat) (e : PdfErr),
        bodyOf env doc s = .error e → runStrat env doc s = none) ∧
    (∀ (env : Env) (doc : Doc) (e : PdfErr),
        bodyOf env doc .clean = .error e →
        process_pdf env doc "clean" =
          prependA .clean
            (tryInOrder env doc [.minimal, .direct, .overlay, .precise, .standard, .simple])) := by
  have habs : ∀ (env : Env) (doc : Doc) (s : Strat) (e : PdfErr),
      bodyOf env doc s = .error e → runStrat env doc s = none := by
    intro env doc s e h
    unfold runStrat
    rw [h]
  refine ⟨habs, fun env doc e h => ?_⟩
  rw [process_pdf_eq_suffix]
  have hsf : suffixFrom "clean" =
      [.clean, .minimal, .direct, .overlay, .precise, .standard, .simple] := by
    simp [suffixFrom]
  rw [hsf]
  simp only [tryInOrder, habs env doc .clean e h]

/-- C8 witness: with no resolvable fonts the clean body raises fontMissing;
the strategy reports failure and the pipeline proceeds with the rest of the
chain. -/
theorem c8_exceptions_absorbed_witness :
    runStrat envNone docKYC .clean = none ∧
    process_pdf envNone docKYC "clean" =
      prependA .clean
        (tryInOrder envNone docKYC [.minimal, .direct, .overlay, .precise, .standard, .simple]) :=
  ⟨c8_exceptions_absorbed.1 envNone docKYC .clean .fontMissing rfl,
   c8_exceptions_absorbed.2 envNone docKYC .fontMissing rfl⟩

/- ----------------------------------------------------------------------
   C9
   ---------------------------------------------------------------------- -/

/-- C9: calling the pipeline with a method name outside the seven
recognized ones returns failure while attempting no strategy at all and
writing nothing. -/
theorem c9_unknown_method (env : Env) (doc : Doc) (m : String)
    (h : m ∉ (["clean", "minimal", "direct", "overlay", "precise",
               "standard", "simple"] : List String)) :
    process_pdf env doc m = ⟨false, [], []⟩ := by
  rw [process_pdf_eq_suffix]
  simp only [List.mem_cons, List.not_mem_nil, or_false, not_or] at h
  obtain ⟨h1, h2, h3, h4, h5, h6, h7⟩ := h
  simp [suffixFrom, h1, h2, h3, h4, h5, h6, h7, tryInOrder]

/-- C9 witness: the unrecognized method name "fancy" yields failure with no
attempts and no writes. -/
theorem c9_unknown_method_witness :
    process_pdf envAll docHello "fancy" = ⟨false, [], []⟩ :=
  c9_unknown_method envAll docHello "fancy" (by decide)

/- ----------------------------------------------------------------------
   C2
   ---------------------------------------------------------------------- -/

/-- C2 counterexample: the simple strategy is NOT unconditional.  On a
readable page that does not contain the target it writes an identical copy
of the input with no watermark at all: the output's page 0 extraction does
not contain "PD Report". -/
theorem c2_simple_cex :
    runStrat envAll docHello .simple = some docHello ∧
    strContainsB (extractText (pageOf docHello)) "PD Report" = false :=
  ⟨by decide, by decide⟩

/-- C2 amended: process_pdf_simple extracts page 0's text and checks it for
"KYC Report"; only when the target is present does it merge the fixed
watermark onto page 0 — otherwise the output is an identical copy with no
watermark.  In both cases it reports success. -/
theorem c2_simple_conditional (env : Env) (doc : Doc) (p : Page) (rest : List Page)
    (hpg : doc.pages = p :: rest) :
    (runStrat env doc .simple).isSome = true ∧
    (strContainsB (extractText p) "KYC Report" = false →
      runStrat env doc .simple = some doc) ∧
    (strContainsB (extractText p) "KYC Report" = true →
      runStrat env doc .simple = some ⟨mergeWatermark p :: rest⟩) := by
  obtain ⟨pages⟩ := doc
  simp only at hpg
  subst hpg
  unfold runStrat bodyOf simpleBody
  by_cases hc : strContainsB (extractText p) "KYC Report" = true
  · simp [hc]
  · simp only [Bool.not_eq_true] at hc
    simp [hc]

/-- C2 witness: the no-target page is copied unchanged with success, and
the target page gets the watermark merged onto page 0. -/
theorem c2_simple_conditional_witness :
    runStrat envAll docHello .simple = some docHello ∧
    runStrat envAll docKYC .simple = some ⟨[mergeWatermark pageKYC]⟩ :=
  ⟨(c2_simple_conditional envAll docHello pageHello [] rfl).2.1 (by decide),
   (c2_simple_conditional envAll docKYC pageKYC [] rfl).2.2 (by decide)⟩

/- ----------------------------------------------------------------------
   C5
   ---------------------------------------------------------------------- -/

/- The document the clean strategy writes for the concrete scenario. -/
def outKYCclean : Doc := (runStrat envAll docKYC .clean).getD ⟨[]⟩

/-- C5 counterexample: on the concrete scenario page the clean strategy
succeeds, but — since it only covers the old line with a drawn rectangle
and inserts just "PD Report" rather than redrawing the substituted full
line — extraction of the resulting page 0 still contains "KYC Report" and
does not contain "2024 PD Report - Confidential". -/
theorem c5_clean_cex :
    runStrat envAll docKYC .clean = some outKYCclean ∧
    strContainsB (extractText (pageOf outKYCclean)) "KYC Report" = true ∧
    strContainsB (extractText (pageOf outKYCclean)) "2024 PD Report - Confidential" = false :=
  ⟨by decide, by decide, by decide⟩

/-- C5 amended: for the concrete scenario span, clean draws a white
rectangle over the bbox expanded by 3 units (a purely additive cover that
removes nothing), then inserts only the replacement string "PD Report" at
(bbox.x0, bbox.y1 - 5) = (50, 710) in accent color #0066cc at size 14;
extraction of the resulting page 0 contains both the untouched original
line (hence still "KYC Report") and the new "PD Report". -/
theorem c5_clean_concrete :
    runStrat envAll docKYC .clean = some outKYCclean ∧
    outKYCclean =
      ⟨[⟨612, 792,
         [⟨some [⟨[spanKYC2024]⟩]⟩,
          ⟨some [⟨[⟨"PD Report", "Helvetica-Bold", 14, ⟨50, 710, 50, 710⟩,
                    some (.tup [⟨0, 255⟩, ⟨102, 255⟩, ⟨204, 255⟩])⟩]⟩]⟩],
         [⟨47, 697, 303, 718⟩]⟩]⟩ ∧
    strContainsB (extractText (pageOf outKYCclean)) "PD Report" = true ∧
    strContainsB (extractText (pageOf outKYCclean)) "KYC Report" = true :=
  ⟨by decide, by decide, by decide, by decide⟩

/- ----------------------------------------------------------------------
   C6
   ---------------------------------------------------------------------- -/

lemma setPage0_get (doc : Doc) (p : Page) (i : Nat) (h : i ≠ 0) :
    (setPage0 doc p).pages[i]? = doc.pages[i]? := by
  obtain ⟨pages⟩ := doc
  unfold setPage0
  cases pages with
  | nil => simp
  | cons a as =>
    cases i with
    | zero => exact absurd rfl h
    | succ k => simp

lemma runStrat_some (env : Env) (doc : Doc) (s : Strat) (out : Doc)
    (h : runStrat env doc s = some out) : bodyOf env doc s = .ok (some out) := by
  unfold runStrat at h
  cases hb : bodyOf env doc s with
  | error e => rw [hb] at h; simp at h
  | ok od =>
    cases od with
    | none => rw [hb] at h; simp at h
    | some d => rw [hb] at h; simp at h; rw [h]

/- Every successful strategy output is either the input document with
   page 0 replaced, or the input page list with its head replaced, or the
   empty document copied by the simple strategy. -/
lemma bodyOf_shape (env : Env) (doc : Doc) (s : Strat) (out : Doc)
    (h : bodyOf env doc s = .ok (some out)) :
    (∃ p', out = setPage0 doc p') ∨
    (∃ p rest, doc.pages = p :: rest ∧ ∃ p0, out = ⟨p0 :: rest⟩) ∨
    (doc.pages = [] ∧ out = ⟨[]⟩) := by
  cases s with
  | clean =>
    simp only [bodyOf, cleanBody] at h
    repeat' split at h
    all_goals simp_all
    exact Or.inl ⟨_, h.symm⟩
  | minimal =>
    simp only [bodyOf, minimalBody] at h
    repeat' split at h
    all_goals simp_all
    exact Or.inl ⟨_, h.symm⟩
  | overlay =>
    simp only [bodyOf, overlayBody] at h
    repeat' split at h
    all_goals simp_all
    exact Or.inl ⟨_, h.symm⟩
  | standard =>
    simp only [bodyOf, standardBody] at h
    repeat' split at h
    all_goals simp_all
    exact Or.inl ⟨_, h.symm⟩
  | direct =>
    simp only [bodyOf, directBody] at h
    repeat' split at h
    all_goals simp_all
  | precise =>
    simp only [bodyOf, preciseBody] at h
    repeat' split at h
    all_goals simp_all
  | simple =>
    simp only [bodyOf, simpleBody] at h
    split at h
    · simp_all
    · simp_all
      exact Or.inr ⟨_, _, ⟨rfl, rfl⟩, _, h.symm⟩

/-- C6: whenever any strategy reports success, the output document has the
same page count as the input, and every page other than page 0 is carried
through unmodified; only page 0 is ever changed. -/
theorem c6_success_preserves_pages (env : Env) (doc : Doc) (s : Strat) (out : Doc)
    (h : runStrat env doc s = some out) :
    out.pages.length = doc.pages.length ∧
    ∀ i, i ≠ 0 → out.pages[i]? = doc.pages[i]? := by
  have hb := runStrat_some env doc s out h
  rcases bodyOf_shape env doc s out hb with ⟨p', rfl⟩ | ⟨p, rest, hpg, p0, rfl⟩ | ⟨hpg, rfl⟩
  · exact ⟨by simp [setPage0], fun i hi => setPage0_get doc p' i hi⟩
  · rw [hpg]
    refine ⟨by simp, fun i hi => ?_⟩
    cases i with
    | zero => exact absurd rfl hi
    | succ k => simp
  · rw [hpg]
    simp

/-- C6 witness: the clean strategy succeeds on a two page document and
preserves the page count and the second page. -/
theorem c6_success_preserves_pages_witness :
    ((runStrat envAll docTwo .clean).getD ⟨[]⟩).pages.length = docTwo.pages.length ∧
    ∀ i, i ≠ 0 →
      ((runStrat envAll docTwo .clean).getD ⟨[]⟩).pages[i]? = docTwo.pages[i]? :=
  c6_success_preserves_pages envAll docTwo .clean
    ((runStrat envAll docTwo .clean).getD ⟨[]⟩) (by decide)

/- ----------------------------------------------------------------------
   C7
   ---------------------------------------------------------------------- -/

def spanKYCshort : Span := ⟨"KYC Report", "helv", 10, ⟨10, 10, 60, 20⟩, some (.tup [0, 0, 0])⟩

/- A whitespace-only span carrying a bare numeric color value. -/
def spanWS : Span := ⟨" ", "helv", 10, ⟨70, 10, 75, 20⟩, some (.num 1)⟩

def blocksC7 : List Block := [⟨some [⟨[spanKYCshort, spanWS]⟩]⟩]

def emittedC7 : List Emit :=
  match rebuildSpansE envAll blocksC7 "KYC Report" "PD Report" with
  | .ok es => es
  | .error _ => []

/-- C7 counterexample: the rebuild loop of direct / precise does NOT
re-emit every span of page 0 — a whitespace-only span is skipped entirely,
so no emitted drawing sits at its bounding-box-derived position. -/
theorem c7_rebuild_cex :
    rebuildSpansE envAll blocksC7 "KYC Report" "PD Report" = .ok emittedC7 ∧
    ¬ (∀ s ∈ flatSpans blocksC7, ∃ e ∈ emittedC7,
        e.pos = (s.bbox.x0, s.bbox.y1 - 2)) :=
  ⟨rfl, by decide⟩

lemma spanColorE_ok (s : Span) (t new : String) :
    spanColorE s t new =
      .ok (if strContainsB t new then PyColor.tup [⟨0, 255⟩, ⟨102, 255⟩, ⟨204, 255⟩]
           else normColor s.color) := by
  unfold spanColorE
  by_cases hcol : strContainsB t new = true
  · rw [if_pos hcol, if_pos hcol]
    rw [show hex_to_rgb "#0066cc" = some (⟨0, 255⟩, ⟨102, 255⟩, ⟨204, 255⟩) from by decide]
  · rw [if_neg hcol, if_neg hcol]

/- The rebuild step with the color match reduced away. -/
lemma rebuildStep_eq (env : Env) (old new : String) (acc : List Emit) (s : Span) :
    rebuildStep env old new acc s =
      if hasNonWS (if strContainsB s.text old then pyReplace s.text old new
          else s.text) then
        (if env.fontOk s.font then
          .ok (acc ++ [⟨(s.bbox.x0, s.bbox.y1 - 2),
            (if strContainsB s.text old then pyReplace s.text old new else s.text),
            s.size, s.font,
            (if strContainsB (if strContainsB s.text old then pyReplace s.text old new
                              else s.text) new
             then PyColor.tup [⟨0, 255⟩, ⟨102, 255⟩, ⟨204, 255⟩]
             else normColor s.color)⟩])
        else .error .fontMissing)
      else .ok acc := by
  unfold rebuildStep
  rw [spanColorE_ok]

lemma rebuildStep_shape (env : Env) (old new : String) (acc : List Emit) (s : Span)
    (a' : List Emit) (h : rebuildStep env old new acc s = .ok a') :
    a' = acc ∨ ∃ e, a' = acc ++ [e] := by
  rw [rebuildStep_eq] at h
  by_cases hws : hasNonWS (if strContainsB s.text old then pyReplace s.text old new
      else s.text) = true
  · rw [if_pos hws] at h
    by_cases hfont : env.fontOk s.font = true
    · rw [if_pos hfont] at h
      simp only [Except.ok.injEq] at h
      exact Or.inr ⟨_, h.symm⟩
    · rw [if_neg hfont] at h
      simp at h
  · rw [if_neg hws] at h
    simp only [Except.ok.injEq] at h
    exact Or.inl h.symm

lemma rebuild_mono (env : Env) (old new : String) :
    ∀ (l : List Span) (acc es : List Emit),
      List.foldlM (rebuildStep env old new) acc l = .ok es → ∃ tl, es = acc ++ tl := by
  intro l
  induction l with
  | nil =>
    intro acc es h
    simp only [List.foldlM, pure, Except.pure, Except.ok.injEq] at h
    exact ⟨[], by simp [h]⟩
  | cons s0 l ih =>
    intro acc es h
    simp only [List.foldlM] at h
    cases hstep : rebuildStep env old new acc s0 with
    | error e => rw [hstep] at h; simp [Bind.bind, Except.bind] at h
    | ok a' =>
      rw [hstep] at h
      simp only [Bind.bind, Except.bind] at h
      obtain ⟨tl, htl⟩ := ih a' es h
      rcases rebuildStep_shape env old new acc s0 a' hstep with rfl | ⟨e, rfl⟩
      · exact ⟨tl, htl⟩
      · exact ⟨e :: tl, by simp [htl]⟩

lemma rebuild_emits (env : Env) (old new : String) :
    ∀ (l : List Span) (acc es : List Emit),
      List.foldlM (rebuildStep env old new) acc l = .ok es →
      ∀ s ∈ l,
        hasNonWS (if strContainsB s.text old then pyReplace s.text old new
                  else s.text) = true →
        ∃ e ∈ es,
          e.pos = (s.bbox.x0, s.bbox.y1 - 2) ∧
          e.text = (if strContainsB s.text old then pyReplace s.text old new
                    else s.text) ∧
          e.size = s.size ∧ e.font = s.font ∧
          e.color =
            (if strContainsB (if strContainsB s.text old then pyReplace s.text old new
                              else s.text) new
             then PyColor.tup [⟨0, 255⟩, ⟨102, 255⟩, ⟨204, 255⟩]
             else normColor s.color) := by
  intro l
  induction l with
  | nil =>
    intro acc es h s hs
    exact absurd hs (List.not_mem_nil s)
  | cons s0 l ih =>
    intro acc es h s hs hws
    simp only [List.foldlM] at h
    cases hstep : rebuildStep env old new acc s0 with
    | error e => rw [hstep] at h; simp [Bind.bind, Except.bind] at h
    | ok a' =>
      rw [hstep] at h
      simp only [Bind.bind, Except.bind] at h
      rcases List.mem_cons.mp hs with rfl | hmem
      · rw [rebuildStep_eq, if_pos hws] at hstep
        by_cases hfont : env.fontOk s.font = true
        · rw [if_pos hfont] at hstep
          simp only [Except.ok.injEq] at hstep
          obtain ⟨tl, rfl⟩ := rebuild_mono env old new l a' es h
          rw [hstep.symm]
          refine ⟨⟨(s.bbox.x0, s.bbox.y1 - 2),
            (if strContainsB s.text old then pyReplace s.text old new else s.text),
            s.size, s.font,
            (if strContainsB (if strContainsB s.text old then pyReplace s.text old new
                              else s.text) new
             then PyColor.tup [⟨0, 255⟩, ⟨102, 255⟩, ⟨204, 255⟩]
             else normColor s.color)⟩, ?_, rfl, rfl, rfl, rfl, rfl⟩
          simp
        · rw [if_neg hfont] at hstep
          simp at hstep
      · exact ih a' es h s hmem hws

/-- C7 amended: whenever the rebuild loop of direct / precise completes,
every span whose substring-replaced text still has a non-whitespace
character is re-emitted at (bbox.x0, bbox.y1 - 2) with its original font
and size; spans containing the replacement text are recolored to the
accent #0066cc = (0/255, 102/255, 204/255); every other emitted span keeps
its color only when it is a tuple or list of length 1, 3 or 4, while
numeric color values and all other shapes are coerced to black.
Whitespace-only spans are not re-emitted at all. -/
theorem c7_rebuild_amended (env : Env) (blocks : List Block) (old new : String)
    (es : List Emit) (h : rebuildSpansE env blocks old new = .ok es)
    (s : Span) (hs : s ∈ flatSpans blocks)
    (hws : hasNonWS (if strContainsB s.text old then pyReplace s.text old new
            else s.text) = true) :
    ∃ e ∈ es,
      e.pos = (s.bbox.x0, s.bbox.y1 - 2) ∧
      e.text = (if strContainsB s.text old then pyReplace s.text old new else s.text) ∧
      e.size = s.size ∧ e.font = s.font ∧
      e.color =
        (if strContainsB (if strContainsB s.text old then pyReplace s.text old new
                          else s.text) new
         then PyColor.tup [⟨0, 255⟩, ⟨102, 255⟩, ⟨204, 255⟩]
         else normColor s.color) := by
  unfold rebuildSpansE at h
  exact rebuild_emits env old new (flatSpans blocks) [] es h s hs hws

/-- C7 witness: on the concrete two-span page the loop completes and the
target span is re-emitted, substring-replaced, in the accent color. -/
theorem c7_rebuild_amended_witness :
    ∃ e ∈ emittedC7,
      e.pos = (spanKYCshort.bbox.x0, spanKYCshort.bbox.y1 - 2) ∧
      e.text = (if strContainsB spanKYCshort.text "KYC Report"
                then pyReplace spanKYCshort.text "KYC Report" "PD Report"
                else spanKYCshort.text) ∧
      e.size = spanKYCshort.size ∧ e.font = spanKYCshort.font ∧
      e.color =
        (if strContainsB (if strContainsB spanKYCshort.text "KYC Report"
                          then pyReplace spanKYCshort.text "KYC Report" "PD Report"
                          else spanKYCshort.text) "PD Report"
         then PyColor.tup [⟨0, 255⟩, ⟨102, 255⟩, ⟨204, 255⟩]
         else normColor spanKYCshort.color) :=
  c7_rebuild_amended envAll blocksC7 "KYC Report" "PD Report" emittedC7 rfl
    spanKYCshort (by decide) (by decide)

/- ----------------------------------------------------------------------
   C10
   ---------------------------------------------------------------------- -/

lemma hexVal_le_15 (c : Char) (v : Nat) (h : hexVal c = some v) : v ≤ 15 := by
  unfold hexVal at h
  split_ifs at h with h1 h2 h3
  · injection h with hv; omega
  · injection h with hv; omega
  · injection h with hv; omega

lemma frac255_toRat (n : Nat) : Frac.toRat ⟨(n : Int), 255⟩ = (n : ℚ) / 255 := by
  unfold Frac.toRat
  push_cast
  ring

lemma frac255_bounds (n : Nat) (h : n ≤ 255) :
    0 ≤ Frac.toRat ⟨(n : Int), 255⟩ ∧ Frac.toRat ⟨(n : Int), 255⟩ ≤ 1 := by
  rw [frac255_toRat]
  constructor
  · positivity
  · rw [div_le_one (by norm_num)]
    exact_mod_cast h

lemma pyIntHex_pair (a b : Char) (va vb : Nat) (ha : hexVal a = some va)
    (hb : hexVal b = some vb) : pyIntHex [a, b] = some (16 * va + vb) := by
  simp [pyIntHex, pyIntHexAux, ha, hb]

/-- C10: for every string of six hexadecimal digits, optionally prefixed by
a hash mark, hex_to_rgb returns a 3-component tuple of exact rationals each
lying in the closed interval from 0 to 1; in particular "#0066cc" is mapped
to (0, 102/255, 204/255). -/
theorem c10_hex_to_rgb :
    (∀ (c1 c2 c3 c4 c5 c6 : Char) (s : String),
      (s.toList = [c1, c2, c3, c4, c5, c6] ∨
        s.toList = '#' :: [c1, c2, c3, c4, c5, c6]) →
      (∀ c ∈ [c1, c2, c3, c4, c5, c6], (hexVal c).isSome = true) →
      ∃ r g b, hex_to_rgb s = some (r, g, b) ∧
        0 ≤ r.toRat ∧ r.toRat ≤ 1 ∧ 0 ≤ g.toRat ∧ g.toRat ≤ 1 ∧
        0 ≤ b.toRat ∧ b.toRat ≤ 1) ∧
    hex_to_rgb "#0066cc" = some (⟨0, 255⟩, ⟨102, 255⟩, ⟨204, 255⟩) ∧
    Frac.toRat ⟨0, 255⟩ = 0 ∧ Frac.toRat ⟨102, 255⟩ = 102 / 255 ∧
    Frac.toRat ⟨204, 255⟩ = 204 / 255 := by
  refine ⟨?_, by decide, by norm_num [Frac.toRat], by norm_num [Frac.toRat],
    by norm_num [Frac.toRat]⟩
  intro c1 c2 c3 c4 c5 c6 s hs hhex
  obtain ⟨v1, h1⟩ := Option.isSome_iff_exists.mp (hhex c1 (by simp))
  obtain ⟨v2, h2⟩ := Option.isSome_iff_exists.mp (hhex c2 (by simp))
  obtain ⟨v3, h3⟩ := Option.isSome_iff_exists.mp (hhex c3 (by simp))
  obtain ⟨v4, h4⟩ := Option.isSome_iff_exists.mp (hhex c4 (by simp))
  obtain ⟨v5, h5⟩ := Option.isSome_iff_exists.mp (hhex c5 (by simp))
  obtain ⟨v6, h6⟩ := Option.isSome_iff_exists.mp (hhex c6 (by simp))
  have hne : (c1 == '#') = false := by
    cases hc : c1 == '#'
    · rfl
    · have hc1 : c1 = '#' := eq_of_beq hc
      rw [hc1] at h1
      have hnone : hexVal '#' = none := by decide
      rw [hnone] at h1
      cases h1
  have hdrop : s.toList.dropWhile (fun c => c == '#') = [c1, c2, c3, c4, c5, c6] := by
    rcases hs with hs | hs <;> rw [hs] <;> simp [List.dropWhile, hne]
  have e1 : pyIntHex (((s.toList.dropWhile (fun c => c == '#')).drop 0).take 2) =
      some (16 * v1 + v2) := by
    rw [hdrop]
    exact pyIntHex_pair c1 c2 v1 v2 h1 h2
  have e2 : pyIntHex (((s.toList.dropWhile (fun c => c == '#')).drop 2).take 2) =
      some (16 * v3 + v4) := by
    rw [hdrop]
    exact pyIntHex_pair c3 c4 v3 v4 h3 h4
  have e3 : pyIntHex (((s.toList.dropWhile (fun c => c == '#')).drop 4).take 2) =
      some (16 * v5 + v6) := by
    rw [hdrop]
    exact pyIntHex_pair c5 c6 v5 v6 h5 h6
  have b1 : 16 * v1 + v2 ≤ 255 := by
    have := hexVal_le_15 c1 v1 h1
    have := hexVal_le_15 c2 v2 h2
    omega
  have b2 : 16 * v3 + v4 ≤ 255 := by
    have := hexVal_le_15 c3 v3 h3
    have := hexVal_le_15 c4 v4 h4
    omega
  have b3 : 16 * v5 + v6 ≤ 255 := by
    have := hexVal_le_15 c5 v5 h5
    have := hexVal_le_15 c6 v6 h6
    omega
  obtain ⟨r0, r1⟩ := frac255_bounds (16 * v1 + v2) b1
  obtain ⟨g0, g1⟩ := frac255_bounds (16 * v3 + v4) b2
  obtain ⟨bl0, bl1⟩ := frac255_bounds (16 * v5 + v6) b3
  refine ⟨⟨((16 * v1 + v2 : Nat) : Int), 255⟩, ⟨((16 * v3 + v4 : Nat) : Int), 255⟩,
    ⟨((16 * v5 + v6 : Nat) : Int), 255⟩, ?_, r0, r1, g0, g1, bl0, bl1⟩
  simp only [hex_to_rgb]
  rw [e1, e2, e3]

/-- C10 witness: the general bound instantiated on the concrete string
"#0066cc". -/
theorem c10_hex_to_rgb_witness :
    ∃ r g b, hex_to_rgb "#0066cc" = some (r, g, b) ∧
      0 ≤ r.toRat ∧ r.toRat ≤ 1 ∧ 0 ≤ g.toRat ∧ g.toRat ≤ 1 ∧
      0 ≤ b.toRat ∧ b.toRat ≤ 1 :=
  c10_hex_to_rgb.1 '0' '0' '6' '6' 'c' 'c' "#0066cc" (by decide) (by decide)
